import Mathlib

/-!
Verification of the PSyIR backend core (SymPy writer, language writer,
Container nodes) against its natural-language specification, via a shallow
embedding of the Python source in Lean 4.
-/

namespace PsyIR

/-- Decimal digit to character (only used for digits 0..9). -/
def digitChar (d : Nat) : Char :=
  match d with
  | 0 => '0' | 1 => '1' | 2 => '2' | 3 => '3' | 4 => '4'
  | 5 => '5' | 6 => '6' | 7 => '7' | 8 => '8' | 9 => '9'
  | _ => '!'

/-- Fuel-bounded decimal rendering of a natural number as a list of
characters (most-significant digit first); empty for 0. -/
def toDecAux : Nat → Nat → List Char
  | 0, _ => []
  | fuel + 1, n =>
      if n = 0 then []
      else toDecAux fuel (n / 10) ++ [digitChar (n % 10)]

/-- Decimal rendering of a natural number, as produced by Python's
str() conversion used when the symbol table appends numeric suffixes. -/
def natToDecimal (n : Nat) : String :=
  if n = 0 then "0" else ⟨toDecAux n n⟩

/-- Numeric value denoted by a list of decimal digit characters. -/
def decValue (l : List Char) : Nat :=
  l.foldl (fun a c => a * 10 + (c.toNat - 48)) 0

/-- Python's str.join: concatenate the strings of the list with the
separator between consecutive elements. -/
def joinSep (sep : String) : List String → String
  | [] => ""
  | [s] => s
  | s :: t :: rest => s ++ sep ++ joinSep sep (t :: rest)

/-- Char-list version of joinSep, used for reasoning. -/
def joinSepL (sep : List Char) : List (List Char) → List Char
  | [] => []
  | [s] => s
  | s :: t :: rest => s ++ sep ++ joinSepL sep (t :: rest)

/-- Candidate names tried by the unique-name generator: the root itself,
then root_1, root_2, ... -/
def candName (root : String) : Nat → String
  | 0 => root
  | k + 1 => root ++ "_" ++ natToDecimal (k + 1)

/-- Bounded search for an unused candidate name: try candName root k,
k+1, ... while the candidate is taken and fuel remains. -/
def searchFree (names : List String) (root : String) : Nat → Nat → String
  | 0, k => candName root k
  | fuel + 1, k =>
      if candName root k ∈ names then searchFree names root fuel (k + 1)
      else candName root k

/-- Modelled from the spec: PSyIR SymbolTable (module psyclone.psyir.symbols,
not part of the provided sources). Per §4.2 of the spec it maps names to
symbols (unique per table), supports find-or-create by name, find-or-create
by tag (idempotent per tag), and fresh unique-name generation from a root
name by appending a numeric suffix on collision (foo, foo_1, foo_2, ...).
Only name and tag bookkeeping is modelled; symbol datatypes are irrelevant
to the claims below. -/
structure SymbolTable where
  names : List String
  tags : List (String × String)
deriving DecidableEq, Repr

/-- Membership test of a name in the table (Python `name in table`). -/
def SymbolTable.hasName (t : SymbolTable) (n : String) : Bool :=
  t.names.contains n

/-- Modelled from the spec: SymbolTable.find_or_create - returns existing
binding or records a new one under the given name. -/
def SymbolTable.find_or_create (t : SymbolTable) (n : String) : SymbolTable :=
  if t.hasName n then t else { t with names := t.names ++ [n] }

/-- First free candidate name derived from root (root, root_1, root_2, ...). -/
def SymbolTable.next_available_name (t : SymbolTable) (root : String) : String :=
  searchFree t.names root t.names.length 0

/-- Modelled from the spec: SymbolTable.new_symbol - always allocates a
table-unique name derived from the root name and records it, together with
the supplied tag. -/
def SymbolTable.new_symbol (t : SymbolTable) (root tag : String) :
    String × SymbolTable :=
  let nm := t.next_available_name root
  (nm, { names := t.names ++ [nm], tags := t.tags ++ [(tag, nm)] })

/-- Modelled from the spec: SymbolTable.find_or_create_tag - returns the
symbol previously created under the tag, or allocates a fresh unique name
derived from the root name and records it under the tag. -/
def SymbolTable.find_or_create_tag (t : SymbolTable) (tag root : String) :
    String × SymbolTable :=
  match t.tags.lookup tag with
  | some nm => (nm, t)
  | none => t.new_symbol root tag

/-- Well-formedness of a symbol table: every tag-bound name is declared in
the table, and no two tags are bound to the same name. Both hold for every
table produced by the modelled operations. -/
def SymbolTable.WF (t : SymbolTable) : Prop :=
  (∀ p ∈ t.tags, p.2 ∈ t.names) ∧ (t.tags.map Prod.snd).Nodup

instance (t : SymbolTable) : Decidable t.WF := by
  unfold SymbolTable.WF
  infer_instance

/-- ScalarType.Intrinsic: the scalar intrinsic kind of a PSyIR literal.
A PSyIR Literal stores its printable value separately from its datatype;
any precision (kind) information lives in the datatype, not in the value. -/
inductive ScalarIntrinsic where
  | integer
  | real
  | boolean
  | character
deriving DecidableEq, Repr

/-- Exceptions raised by the backend handlers: VisitorError
(psyclone.psyir.backend.visitor), TypeError and NotImplementedError
(Python built-ins), each carrying its message. -/
inductive VErr where
  | visitorError (msg : String)
  | typeError (msg : String)
  | notImplementedError (msg : String)
deriving DecidableEq, Repr

mutual
/-- Expression subtrees handled by the SymPy writer. `reference` is a plain
Reference node carrying whether its symbol is an array (Reference.is_array)
and the length of the symbol's shape; `arrayReference` has index children;
`structureReference` has exactly one Member child; `aosReference` is an
ArrayOfStructuresReference whose children are modelled by `AOSChild` (its
first child may legally be a Member, but the tree can also hold None or an
index there); `intrinsicCall` carries the Fortran intrinsic name and its argument slots;
a slot pairs the slot of Call._argument_names (None for positional
arguments) with the argument expression child at the same position. -/
inductive SymExpr where
  | literal (dt : ScalarIntrinsic) (value : String)
  | reference (name : String) (isArr : Bool) (rank : Nat)
  | arrayReference (name : String) (indices : List SymIndex)
  | structureReference (name : String) (m : SMember)
  | aosReference (name : String) (children : List AOSChild)
  | binaryOp (op : String) (lhs rhs : SymExpr)
  | intrinsicCall (fname : String) (args : List IntrinsicArg)

/-- One argument slot of an IntrinsicCall: its entry in the parallel
_argument_names list and the child expression. -/
inductive IntrinsicArg where
  | arg (name : Option String) (e : SymExpr)

/-- A dimension entry passed to gen_indices: a single DataNode expression,
a Range (whose isLow/isUp flags model ArrayMixin.is_lower_bound and
is_upper_bound on the parent array at this dimension), an
ArrayType.ArrayBounds pair, or an unknown ArrayType.Extent. -/
inductive SymIndex where
  | expr (e : SymExpr)
  | range (start stop step : SymExpr) (isLow isUp : Bool)
  | bounds (lower upper : SymExpr)
  | extent

/-- A Member node of a structure-access chain: its name, an optional
sub-member continuing the chain (child 0 when present), and its array-index
children. Member.is_array holds exactly when it has index children. -/
inductive SMember where
  | member (name : String) (sub : Option SMember) (indices : List SymIndex)

/-- A child slot of an ArrayOfStructuresReference as seen by the writer:
a Member node, an index entry, or the Python value None. -/
inductive AOSChild where
  | member (m : SMember)
  | index (i : SymIndex)
  | absent
end

/-- Python type name of an ArrayOfStructuresReference child, as interpolated
into the VisitorError message via type(child).__name__. -/
def aosChildTypeName : AOSChild → String
  | .member _ => "Member"
  | .absent => "NoneType"
  | .index (.expr (.literal _ _)) => "Literal"
  | .index (.expr (.reference _ _ _)) => "Reference"
  | .index (.expr (.arrayReference _ _)) => "ArrayReference"
  | .index (.expr (.structureReference _ _)) => "StructureReference"
  | .index (.expr (.aosReference _ _)) => "ArrayOfStructuresReference"
  | .index (.expr (.binaryOp _ _ _)) => "BinaryOperation"
  | .index (.expr (.intrinsicCall _ _)) => "IntrinsicCall"
  | .index (.range _ _ _ _ _) => "Range"
  | .index (.bounds _ _) => "ArrayBounds"
  | .index .extent => "Extent"

/-- Python str() display of an unsupported gen_indices entry, approximated:
only the None case ("None") is exercised by the theorems below. -/
def aosChildDisplay : AOSChild → String
  | .absent => "None"
  | .member _ => "Member"
  | .index _ => "Index"

/-- Python str.capitalize: first character upper-cased, the rest
lower-cased. -/
def pyCapitalize (s : String) : String :=
  match s.data with
  | [] => ""
  | c :: rest => ⟨c.toUpper :: rest.map Char.toLower⟩

/-- Configuration of a LanguageWriter: array parenthesis pair and the
structure-access separator character. -/
structure WriterConfig where
  parenOpen : String
  parenClose : String
  structureCharacter : String
deriving DecidableEq, Repr

/-- The Fortran configuration used by FortranWriter and hence SymPyWriter. -/
def fortranConfig : WriterConfig :=
  { parenOpen := "(", parenClose := ")", structureCharacter := "%" }

/-- Kind of a SymPy object recorded in the type map: a Symbol for scalars,
an (uninterpreted) Function for arrays. -/
inductive SymKind where
  | symbol
  | function
deriving DecidableEq, Repr

/-- Mutable state of a SymPyWriter during one conversion: its symbol table,
the name-to-SymPy-object type map, and the two reserved bound names. -/
structure WState where
  table : SymbolTable
  typeMap : List (String × SymKind)
  lowerBound : String
  upperBound : String
deriving DecidableEq, Repr

/-- The intrinsic-to-SymPy-name mapping built in SymPyWriter.__init__. -/
def intrinsicToStr : List (String × String) :=
  [("MAX", "Max"), ("MIN", "Min"), ("FLOOR", "floor"),
   ("TRANSPOSE", "transpose"), ("MOD", "Mod"), ("EXP", "exp")]

/-- Python dict assignment m[k] = v on an association list: replace the
value in place if the key exists, else append. -/
def setEntry : List (String × SymKind) → String → SymKind → List (String × SymKind)
  | [], k, v => [(k, v)]
  | p :: rest, k, v =>
      if p.1 = k then (k, v) :: rest else p :: setEntry rest k v

mutual
/-- The visitor dispatch (_visit) of the SymPyWriter on one node, embedding
the handlers of sympy_writer.py and the LanguageWriter helpers it inherits.
`root` is true exactly when the node has no parent (the expression root, as
visited by PSyIRVisitor.__call__; lowering is disabled via
_DISABLE_LOWERING, so no deep copy happens). The result is the generated
text, the node as it stands AFTER the visit (the source visits the input
tree in place), and the updated writer state. -/
def visitExpr (cfg : WriterConfig) (root : Bool) (st : WState) :
    SymExpr → Except VErr (String × SymExpr × WState)
  | .literal dt v =>
      -- SymPyWriter.literal_node (sympy_writer.py:410-438)
      if dt = ScalarIntrinsic.boolean then
        .ok (pyCapitalize v, .literal dt v, st)
      else if dt = ScalarIntrinsic.character then
        .error (.typeError ("SymPy cannot handle strings like '" ++ v ++ "'."))
      else
        .ok (v, .literal dt v, st)
  | .reference name isArr rank =>
      -- SymPyWriter.reference_node (sympy_writer.py:480-507); the non-array
      -- case falls back to FortranWriter.reference_node, which returns the
      -- plain name (modelled from the spec, module not in the sources)
      if isArr then
        .ok (name ++ cfg.parenOpen
              ++ joinSep ","
                  (List.replicate rank (st.lowerBound ++ "," ++ st.upperBound ++ ",1"))
              ++ cfg.parenClose,
             .reference name isArr rank, st)
      else
        .ok (name, .reference name isArr rank, st)
  | .arrayReference name indices =>
      -- LanguageWriter.arrayreference_node (language_writer.py:112-134);
      -- gen_dims delegates to SymPyWriter.gen_indices
      if indices.isEmpty then
        .error (.visitorError ("Incomplete ArrayReference node (for symbol '"
          ++ name ++ "') found: must have one or more children."))
      else do
        let (dims, indices2, st2) ← genIndices cfg st indices
        .ok (name ++ cfg.parenOpen ++ joinSep "," dims ++ cfg.parenClose,
             .arrayReference name indices2, st2)
  | .structureReference name m => do
      -- LanguageWriter.structurereference_node (language_writer.py:137-164);
      -- the single Member child is enforced by the node type here
      let (ms, m2, st2) ← visitMember cfg st [name] m
      .ok (name ++ cfg.structureCharacter ++ ms, .structureReference name m2, st2)
  | .aosReference name children =>
      -- LanguageWriter.arrayofstructuresreference_node
      -- (language_writer.py:198-230)
      if children.length < 2 then
        .error (.visitorError
          ("An ArrayOfStructuresReference must have at least two children but found "
            ++ natToDecimal children.length))
      else
        match children with
        | AOSChild.member m :: rest => do
            let (dims, rest2, st2) ← genIndicesAOS cfg st rest
            let (ms, m2, st3) ← visitMember cfg st2 [name] m
            .ok (name ++ cfg.parenOpen ++ joinSep "," dims ++ cfg.parenClose
                  ++ cfg.structureCharacter ++ ms,
                 .aosReference name (AOSChild.member m2 :: rest2), st3)
        | c :: _ =>
            .error (.visitorError
              ("An ArrayOfStructuresReference must have a Member as its first child but found '"
                ++ aosChildTypeName c ++ "'"))
        | [] =>
            -- unreachable: an empty child list is caught by the length check
            .error (.visitorError
              ("An ArrayOfStructuresReference must have at least two children but found "
                ++ natToDecimal 0))
  | .binaryOp op lhs rhs => do
      -- FortranWriter.binaryoperation_node (modelled from the spec: infix
      -- rendering of the operator between its rendered operands)
      let (ls, lhs2, st2) ← visitExpr cfg false st lhs
      let (rs, rhs2, st3) ← visitExpr cfg false st2 rhs
      .ok (ls ++ " " ++ op ++ " " ++ rs, .binaryOp op lhs2 rhs2, st3)
  | .intrinsicCall fname args =>
      -- SymPyWriter.intrinsiccall_node (sympy_writer.py:440-459): when any
      -- argument name is present, every argument-name slot of the INPUT
      -- node is overwritten with None, in place, before rendering; the
      -- clearing is propagated through the `cleared` flag of visitArgs,
      -- which rebuilds the post-visit slots with the names erased
      let cleared := args.any (fun a => match a with
                               | IntrinsicArg.arg n _ => n.isSome)
      match intrinsicToStr.lookup fname with
      | some nm => do
          let (argStrs, args2, st2) ← visitArgs cfg cleared st args
          if root then
            .ok ("call " ++ nm ++ "(" ++ joinSep ", " argStrs ++ ")\n",
                 .intrinsicCall fname args2, st2)
          else
            .ok (nm ++ "(" ++ joinSep ", " argStrs ++ ")",
                 .intrinsicCall fname args2, st2)
      | none => do
          -- KeyError fallback: FortranWriter.call_node (modelled from the
          -- spec: default expression-call rendering under the original name)
          let (argStrs, args2, st2) ← visitArgs cfg cleared st args
          if root then
            .ok ("call " ++ fname ++ "(" ++ joinSep ", " argStrs ++ ")\n",
                 .intrinsicCall fname args2, st2)
          else
            .ok (fname ++ "(" ++ joinSep ", " argStrs ++ ")",
                 .intrinsicCall fname args2, st2)

/-- SymPyWriter.gen_indices (sympy_writer.py:510-554) over the whole list. -/
def genIndices (cfg : WriterConfig) (st : WState) :
    List SymIndex → Except VErr (List String × List SymIndex × WState)
  | [] => .ok ([], [], st)
  | i :: rest => do
      let (ds, i2, st2) ← genIndex cfg st i
      let (rs, rest2, st3) ← genIndices cfg st2 rest
      .ok (ds ++ rs, i2 :: rest2, st3)

/-- One dimension of SymPyWriter.gen_indices: a DataNode index becomes the
triple index,index,1; a Range is rendered by SymPyWriter.range_node
(sympy_writer.py:557-589, inlined here) as start,stop,step with the
reserved bound names substituted at full-extent ends; ArrayBounds becomes
lower,upper,1; an unknown Extent becomes the reserved-bound triple. -/
def genIndex (cfg : WriterConfig) (st : WState) :
    SymIndex → Except VErr (List String × SymIndex × WState)
  | .expr e => do
      let (v, e2, st2) ← visitExpr cfg false st e
      .ok ([v, v, "1"], .expr e2, st2)
  | .range start stop step isLow isUp => do
      let (startStr, start2, st2) ←
        if isLow then pure (st.lowerBound, start, st)
        else visitExpr cfg false st start
      let (stopStr, stop2, st3) ←
        if isUp then pure (st2.upperBound, stop, st2)
        else visitExpr cfg false st2 stop
      let (stepStr, step2, st4) ← visitExpr cfg false st3 step
      .ok ([startStr ++ "," ++ stopStr ++ "," ++ stepStr],
           .range start2 stop2 step2 isLow isUp, st4)
  | .bounds lower upper => do
      let (ls, lo2, st2) ← visitExpr cfg false st lower
      let (us, up2, st3) ← visitExpr cfg false st2 upper
      .ok ([ls, us, "1"], .bounds lo2 up2, st3)
  | .extent => .ok ([st.lowerBound, st.upperBound, "1"], .extent, st)

/-- gen_indices applied to the tail children of an
ArrayOfStructuresReference: a child that is not an index entry falls into
the final NotImplementedError branch of SymPyWriter.gen_indices. -/
def genIndicesAOS (cfg : WriterConfig) (st : WState) :
    List AOSChild → Except VErr (List String × List AOSChild × WState)
  | [] => .ok ([], [], st)
  | AOSChild.index i :: rest => do
      let (ds, i2, st2) ← genIndex cfg st i
      let (rs, rest2, st3) ← genIndicesAOS cfg st2 rest
      .ok (ds ++ rs, AOSChild.index i2 :: rest2, st3)
  | c :: _ =>
      .error (.notImplementedError
        ("unsupported gen_indices index '" ++ aosChildDisplay c ++ "'"))

/-- SymPyWriter.member_node (sympy_writer.py:354-407). `anc` holds the
names collected by walking from the parent Reference down to this node
(the source recovers them by walking parent links upward and reversing).
The flat root name joins them with underscores, the unique tag with
percent signs; the symbol table allocates/reuses the flat identifier, the
type map records it, and the rendered text of
LanguageWriter.member_node (language_writer.py:167-194, inlined in the
match below, with sub-members dispatched back to this handler) has its
leading member name replaced by the flat identifier. -/
def visitMember (cfg : WriterConfig) (st : WState) (anc : List String) :
    SMember → Except VErr (String × SMember × WState)
  | .member name sub indices =>
      let nameList := anc ++ [name]
      let rootName := joinSep "_" nameList
      let sigName := joinSep "%" nameList
      let res := st.table.find_or_create_tag sigName rootName
      let newName := res.1
      let typeMap2 :=
        if (st.typeMap.lookup newName).isSome then st.typeMap
        else st.typeMap
          ++ [(newName, if indices.isEmpty then SymKind.symbol else SymKind.function)]
      let st2 : WState := { st with table := res.2, typeMap := typeMap2 }
      match sub with
      | some s =>
          if indices.isEmpty then do
            let (subStr, s2, st3) ← visitMember cfg st2 (anc ++ [name]) s
            let original := name ++ cfg.structureCharacter ++ subStr
            .ok (newName ++ original.drop name.length,
                 .member name (some s2) indices, st3)
          else do
            let (dims, indices2, st3) ← genIndices cfg st2 indices
            let (subStr, s2, st4) ← visitMember cfg st3 (anc ++ [name]) s
            let original := name ++ cfg.parenOpen ++ joinSep "," dims
              ++ cfg.parenClose ++ cfg.structureCharacter ++ subStr
            .ok (newName ++ original.drop name.length,
                 .member name (some s2) indices2, st4)
      | none =>
          if indices.isEmpty then
            let original := name
            .ok (newName ++ original.drop name.length,
                 .member name none indices, st2)
          else do
            let (dims, indices2, st3) ← genIndices cfg st2 indices
            let original := name ++ cfg.parenOpen ++ joinSep "," dims
              ++ cfg.parenClose
            .ok (newName ++ original.drop name.length,
                 .member name none indices2, st3)

/-- FortranWriter._gen_arguments over the argument slots (modelled from
the spec: named arguments render as name=value, positional ones as the
value; the call-site joins them). When `cleared` is set, the caller has
just erased every argument name in place, so each slot is treated - and
returned - as unnamed. -/
def visitArgs (cfg : WriterConfig) (cleared : Bool) (st : WState) :
    List IntrinsicArg → Except VErr (List String × List IntrinsicArg × WState)
  | [] => .ok ([], [], st)
  | IntrinsicArg.arg nm e :: rest => do
      let nmEff := if cleared then none else nm
      let (v, e2, st2) ← visitExpr cfg false st e
      let s := match nmEff with
               | some n => n ++ "=" ++ v
               | none => v
      let (vs, rest2, st3) ← visitArgs cfg cleared st2 rest
      .ok (s :: vs, IntrinsicArg.arg nmEff e2 :: rest2, st3)
end

mutual
/-- expr.walk(Reference): the names of all Reference-family nodes of the
tree in depth-first pre-order, each paired with its Reference.is_array
value (an ArrayReference or ArrayOfStructuresReference accesses an array;
a plain Reference carries its arrayness; a StructureReference denotes the
structure object itself). -/
def walkRefs : SymExpr → List (String × Bool)
  | .literal _ _ => []
  | .reference n isArr _ => [(n, isArr)]
  | .arrayReference n idxs => (n, true) :: walkRefsIdxs idxs
  | .structureReference n m => (n, false) :: walkRefsMember m
  | .aosReference n cs => (n, true) :: walkRefsAOS cs
  | .binaryOp _ lhs rhs => walkRefs lhs ++ walkRefs rhs
  | .intrinsicCall _ args => walkRefsArgs args

def walkRefsIdxs : List SymIndex → List (String × Bool)
  | [] => []
  | i :: rest => walkRefsIdx i ++ walkRefsIdxs rest

def walkRefsIdx : SymIndex → List (String × Bool)
  | .expr e => walkRefs e
  | .range s t p _ _ => walkRefs s ++ walkRefs t ++ walkRefs p
  | .bounds l u => walkRefs l ++ walkRefs u
  | .extent => []

def walkRefsMember : SMember → List (String × Bool)
  | .member _ sub idxs =>
      (match sub with
       | some s => walkRefsMember s
       | none => []) ++ walkRefsIdxs idxs

def walkRefsAOS : List AOSChild → List (String × Bool)
  | [] => []
  | AOSChild.member m :: rest => walkRefsMember m ++ walkRefsAOS rest
  | AOSChild.index i :: rest => walkRefsIdx i ++ walkRefsAOS rest
  | AOSChild.absent :: rest => walkRefsAOS rest

def walkRefsArgs : List IntrinsicArg → List (String × Bool)
  | [] => []
  | IntrinsicArg.arg _ e :: rest => walkRefs e ++ walkRefsArgs rest
end

/-- The reference-declaration loop of SymPyWriter._create_type_map: each
walked reference name not yet in the (fresh) symbol table is declared via
find_or_create and recorded in the type map as a Symbol (scalar) or
Function (array). -/
def declareRefs :
    SymbolTable × List (String × SymKind) → List (String × Bool) →
      SymbolTable × List (String × SymKind)
  | acc, [] => acc
  | acc, p :: rest =>
      if acc.1.hasName p.1 then declareRefs acc rest
      else declareRefs
        ({ acc.1 with names := acc.1.names ++ [p.1] },
         setEntry acc.2 p.1 (if p.2 then SymKind.function else SymKind.symbol))
        rest

/-- SymPyWriter._create_type_map (sympy_writer.py:175-246): a brand-new
SymbolTable is created for this call; every reference of every expression
is declared in it and typed in the (persistent) type map; finally the two
reserved bound names are allocated as new tagged symbols, collision-checked
against the just-filled table. -/
def createTypeMap (st : WState) (exprs : List SymExpr) : WState :=
  let freshTable : SymbolTable := { names := [], tags := [] }
  let declared := declareRefs (freshTable, st.typeMap)
    (exprs.foldr (fun e acc => walkRefs e ++ acc) [])
  let lower := declared.1.new_symbol "sympy_lower" "sympy!lower_bound"
  let upper := lower.2.new_symbol "sympy_upper" "sympy!upper_bound"
  { table := upper.2, typeMap := declared.2,
    lowerBound := lower.1, upperBound := upper.1 }

/-- The per-expression loop of SymPyWriter._to_str: each expression is
converted by the visitor (as a parentless root), threading the writer
state through the batch. -/
def visitRoots (cfg : WriterConfig) (st : WState) :
    List SymExpr → Except VErr (List String × List SymExpr × WState)
  | [] => .ok ([], [], st)
  | e :: rest => do
      let (s, e2, st2) ← visitExpr cfg true st e
      let (ss, rest2, st3) ← visitRoots cfg st2 rest
      .ok (s :: ss, e2 :: rest2, st3)

/-- SymPyWriter._to_str (sympy_writer.py:277-308) on a list of
expressions: build the type map (fresh symbol table), then render each
expression. -/
def toStrList (cfg : WriterConfig) (st : WState) (exprs : List SymExpr) :
    Except VErr (List String × List SymExpr × WState) :=
  visitRoots cfg (createTypeMap st exprs) exprs

/-- The parse loop of SymPyWriter.__call__: parse each generated string
with the external engine (abstracted as a fallible function); the first
rejected string raises a VisitorError carrying that string. -/
def parseAll {PR : Type} (parse : String → Option PR) :
    List String → Except VErr (List PR)
  | [] => .ok []
  | s :: rest =>
      match parse s with
      | some r =>
          match parseAll parse rest with
          | .ok rs => .ok (r :: rs)
          | .error err => .error err
      | none =>
          .error (.visitorError ("Invalid SymPy expression: '" ++ s ++ "'."))

/-- SymPyWriter.__call__ (sympy_writer.py:311-351) on a list of
expressions: convert them to strings via _to_str, then parse every string,
wrapping a parser rejection in a VisitorError that carries the offending
generated string. sympy.parse_expr itself is external to this repository
and is abstracted as the `parse` argument. -/
def sympyCall {PR : Type} (parse : String → Option PR) (cfg : WriterConfig)
    (st : WState) (exprs : List SymExpr) :
    Except VErr (List PR × List SymExpr × WState) := do
  let (strs, post, st2) ← toStrList cfg st exprs
  let rs ← parseAll parse strs
  .ok (rs, post, st2)

/-- Concrete variant tag of a Container node: Container itself or its
FileContainer subclass (file_container.py), which adds no attributes. -/
inductive ContainerVariant where
  | container
  | fileContainer
deriving DecidableEq, Repr

/-- The PSyIR node kinds relevant to the Container claims; `containerNode`
covers Container and FileContainer (a FileContainer is a Container). -/
inductive PsyNode where
  | containerNode (variant : ContainerVariant) (name : String)
      (children : List PsyNode)
  | routine (name : String)
  | codeBlock
  | assignment
  | literalNode (value : String)
  | returnStmt

/-- Container._validate_child (container.py:86-98): a child is valid, at
any position, exactly when it is a Container (including FileContainer), a
Routine or a CodeBlock. -/
def containerValidateChild (_position : Nat) (child : PsyNode) : Bool :=
  match child with
  | .containerNode _ _ _ => true
  | .routine _ => true
  | .codeBlock => true
  | _ => false

/-- Container.__eq__ (container.py:73-84): equal when super().__eq__ holds
and the names agree. The Node base equality is modelled from the spec
(the node base class is not in the sources): nodes of the same concrete
variant compare by variant-specific attributes, so the super check demands
the same concrete variant tag. -/
def containerEq : PsyNode → PsyNode → Bool
  | .containerNode v1 n1 _, .containerNode v2 n2 _ => v1 == v2 && n1 == n2
  | _, _ => false

/-- Writer state as set up by SymPyWriter.__init__: no table yet filled,
empty type map, and the default reserved bound names. -/
def initState : WState :=
  { table := { names := [], tags := [] }, typeMap := [],
    lowerBound := "sympy_lower", upperBound := "sympy_upper" }

/-- The expression x + c for a literal digit string c, used by the
two-batch scenario of the spec. -/
def xPlus (c : String) : SymExpr :=
  SymExpr.binaryOp "+" (.reference "x" false 0) (.literal .integer c)

theorem decValue_append_digit (l : List Char) (c : Char) :
    decValue (l ++ [c]) = decValue l * 10 + (c.toNat - 48) := by
  simp [decValue, List.foldl_append]

theorem digitChar_val (d : Nat) (h : d < 10) :
    (digitChar d).toNat - 48 = d := by
  interval_cases d <;> decide

theorem decValue_toDecAux : ∀ fuel n, n ≤ fuel → decValue (toDecAux fuel n) = n := by
  intro fuel
  induction fuel with
  | zero =>
      intro n hn
      interval_cases n
      decide
  | succ f ih =>
      intro n hn
      by_cases h0 : n = 0
      · subst h0; simp [toDecAux, decValue]
      · have hpos : 0 < n := Nat.pos_of_ne_zero h0
        have hdiv : n / 10 ≤ f := by
          have : n / 10 < n := Nat.div_lt_self hpos (by decide)
          omega
        rw [toDecAux]
        simp only [h0, if_false]
        rw [decValue_append_digit, ih _ hdiv,
            digitChar_val _ (Nat.mod_lt n (by decide))]
        omega

theorem natToDecimal_injective : Function.Injective natToDecimal := by
  intro a b hab
  by_cases ha : a = 0 <;> by_cases hb : b = 0
  · omega
  · exfalso
    rw [natToDecimal, natToDecimal, if_pos ha, if_neg hb] at hab
    have hdata : ['0'] = toDecAux b b := congrArg String.data hab
    have := decValue_toDecAux b b le_rfl
    rw [← hdata] at this
    simp [decValue] at this
    omega
  · exfalso
    rw [natToDecimal, natToDecimal, if_neg ha, if_pos hb] at hab
    have hdata : toDecAux a a = ['0'] := congrArg String.data hab
    have := decValue_toDecAux a a le_rfl
    rw [hdata] at this
    simp [decValue] at this
    omega
  · rw [natToDecimal, natToDecimal, if_neg ha, if_neg hb] at hab
    have hdata : toDecAux a a = toDecAux b b := congrArg String.data hab
    have := decValue_toDecAux a a le_rfl
    rw [hdata, decValue_toDecAux b b le_rfl] at this
    omega

theorem natToDecimal_pos_ne_empty (n : Nat) (h : 0 < n) : natToDecimal n ≠ "" := by
  rw [natToDecimal, if_neg (Nat.pos_iff_ne_zero.mp h)]
  intro hc
  have hdata : toDecAux n n = [] := congrArg String.data hc
  have := decValue_toDecAux n n le_rfl
  rw [hdata] at this
  simp [decValue] at this
  omega

theorem joinSep_data (sep : String) :
    ∀ l : List String, (joinSep sep l).data = joinSepL sep.data (l.map String.data)
  | [] => rfl
  | [s] => rfl
  | s :: t :: rest => by
      simp only [joinSep, joinSepL, List.map]
      rw [show (s ++ sep ++ joinSep sep (t :: rest)).data
            = s.data ++ sep.data ++ (joinSep sep (t :: rest)).data by
          simp [String.data_append]]
      rw [joinSep_data sep (t :: rest)]
      rfl

/-- If two char lists both avoiding character c, each followed by c and a
tail, concatenate to the same list, then heads and tails agree. -/
theorem split_at_sep (c : Char) :
    ∀ (x y u v : List Char), c ∉ x → c ∉ y →
      x ++ c :: u = y ++ c :: v → x = y ∧ u = v := by
  intro x
  induction x with
  | nil =>
      intro y u v _ hy h
      cases y with
      | nil => simpa using h
      | cons b y' =>
          simp only [List.nil_append, List.cons_append, List.cons.injEq] at h
          exact absurd (h.1 ▸ List.mem_cons_self b y') (by simp [h.1] at hy)
  | cons a x' ih =>
      intro y u v hx hy h
      cases y with
      | nil =>
          simp only [List.cons_append, List.nil_append, List.cons.injEq] at h
          exact absurd (h.1 ▸ List.mem_cons_self a x') (by simp [h.1] at hx)
      | cons b y' =>
          simp only [List.cons_append, List.cons.injEq] at h
          obtain ⟨hab, hrest⟩ := h
          have := ih y' u v (fun hc => hx (List.mem_cons_of_mem a hc))
            (fun hc => hy (List.mem_cons_of_mem b hc)) hrest
          exact ⟨by rw [hab, this.1], this.2⟩

/-- joinSepL with a single-character separator that occurs in no component
is injective on nonempty lists of components. -/
theorem joinSepL_injective (c : Char) :
    ∀ (l1 l2 : List (List Char)),
      (∀ s ∈ l1, c ∉ s) → (∀ s ∈ l2, c ∉ s) →
      l1 ≠ [] → l2 ≠ [] →
      joinSepL [c] l1 = joinSepL [c] l2 → l1 = l2 := by
  intro l1
  induction l1 with
  | nil => intro _ _ _ h1 _ _; exact absurd rfl h1
  | cons s1 r1 ih =>
      intro l2 hn1 hn2 _ hne2 hj
      cases l2 with
      | nil => exact absurd rfl hne2
      | cons s2 r2 =>
          cases r1 with
          | nil =>
              cases r2 with
              | nil => simpa [joinSepL] using hj
              | cons t2 r2' =>
                  exfalso
                  simp only [joinSepL] at hj
                  have : c ∈ s1 := by
                    rw [hj]
                    simp [List.mem_append]
                  exact hn1 s1 (by simp) this
          | cons t1 r1' =>
              cases r2 with
              | nil =>
                  exfalso
                  simp only [joinSepL] at hj
                  have : c ∈ s2 := by
                    rw [← hj]
                    simp [List.mem_append]
                  exact hn2 s2 (by simp) this
              | cons t2 r2' =>
                  simp only [joinSepL] at hj
                  rw [List.append_assoc, List.append_assoc] at hj
                  have hsplit := split_at_sep c s1 s2 _ _
                    (hn1 s1 (by simp)) (hn2 s2 (by simp)) (by simpa using hj)
                  have htail := ih (t2 :: r2')
                    (fun s hs => hn1 s (List.mem_cons_of_mem s1 hs))
                    (fun s hs => hn2 s (List.mem_cons_of_mem s2 hs))
                    (by simp) (by simp) hsplit.2
                  rw [hsplit.1, htail]

/-- joinSep with separator "%" is injective on nonempty lists of
percent-free strings. -/
theorem joinSep_percent_injective (l1 l2 : List String)
    (h1 : ∀ s ∈ l1, '%' ∉ s.data) (h2 : ∀ s ∈ l2, '%' ∉ s.data)
    (hne1 : l1 ≠ []) (hne2 : l2 ≠ []) :
    joinSep "%" l1 = joinSep "%" l2 → l1 = l2 := by
  intro hj
  have hdata := congrArg String.data hj
  rw [joinSep_data, joinSep_data] at hdata
  have := joinSepL_injective '%' (l1.map String.data) (l2.map String.data)
    (by intro s hs; obtain ⟨t, ht, rfl⟩ := List.mem_map.mp hs; exact h1 t ht)
    (by intro s hs; obtain ⟨t, ht, rfl⟩ := List.mem_map.mp hs; exact h2 t ht)
    (by simpa using hne1) (by simpa using hne2) (by simpa using hdata)
  have hinj : Function.Injective String.data := by
    intro a b hab
    cases a; cases b; exact congrArg String.mk hab
  exact List.map_injective_iff.mpr hinj this

theorem candName_injective (root : String) : Function.Injective (candName root) := by
  intro a b hab
  match a, b with
  | 0, 0 => rfl
  | 0, j + 1 =>
      exfalso
      have hlen := congrArg String.length hab
      simp only [candName, String.length_append] at hlen
      have := natToDecimal_pos_ne_empty (j + 1) (Nat.succ_pos j)
      have hpos : 0 < (natToDecimal (j + 1)).length := by
        cases hh : natToDecimal (j + 1) with
        | mk data =>
            cases data with
            | nil => exact absurd hh (by simpa [String.ext_iff] using this)
            | cons c cs => simp [String.length, hh]
      omega
  | k + 1, 0 =>
      exfalso
      have hlen := congrArg String.length hab
      simp only [candName, String.length_append] at hlen
      have := natToDecimal_pos_ne_empty (k + 1) (Nat.succ_pos k)
      have hpos : 0 < (natToDecimal (k + 1)).length := by
        cases hh : natToDecimal (k + 1) with
        | mk data =>
            cases data with
            | nil => exact absurd hh (by simpa [String.ext_iff] using this)
            | cons c cs => simp [String.length, hh]
      omega
  | k + 1, j + 1 =>
      have hdata := congrArg String.data hab
      simp only [candName, String.data_append] at hdata
      have h2 := List.append_cancel_left hdata
      have : natToDecimal (k + 1) = natToDecimal (j + 1) := by
        cases hk : natToDecimal (k + 1); cases hj : natToDecimal (j + 1)
        rw [hk, hj] at h2
        exact congrArg String.mk h2
      exact congrArg (· + 1) (by
        have := natToDecimal_injective this
        omega)

theorem searchFree_not_mem (names : List String) (root : String) :
    ∀ fuel k, (∃ i, k ≤ i ∧ i ≤ k + fuel ∧ candName root i ∉ names) →
      searchFree names root fuel k ∉ names := by
  intro fuel
  induction fuel with
  | zero =>
      intro k ⟨i, h1, h2, h3⟩
      have : i = k := by omega
      subst this
      simpa [searchFree] using h3
  | succ f ih =>
      intro k ⟨i, h1, h2, h3⟩
      rw [searchFree]
      by_cases hk : candName root k ∈ names
      · rw [if_pos hk]
        apply ih (k + 1)
        refine ⟨i, ?_, by omega, h3⟩
        rcases Nat.eq_or_lt_of_le h1 with h | h
        · exact absurd (h ▸ hk) h3
        · omega
      · rw [if_neg hk]; exact hk

theorem exists_free_candidate (names : List String) (root : String) :
    ∃ i, 0 ≤ i ∧ i ≤ 0 + names.length ∧ candName root i ∉ names := by
  by_contra hcon
  push_neg at hcon
  have hmaps : ∀ i ∈ Finset.range (names.length + 1),
      candName root i ∈ names.toFinset := by
    intro i hi
    simp only [Finset.mem_range] at hi
    exact List.mem_toFinset.mpr (hcon i (by omega) (by omega))
  have hinj : Set.InjOn (candName root) (Finset.range (names.length + 1)) :=
    fun a _ b _ hab => candName_injective root hab
  have hcard := Finset.card_le_card_of_injOn (candName root) hmaps hinj
  have h1 : (Finset.range (names.length + 1)).card = names.length + 1 :=
    Finset.card_range _
  have h2 : names.toFinset.card ≤ names.length := names.toFinset_card_le
  omega

theorem next_available_name_not_mem (t : SymbolTable) (root : String) :
    t.next_available_name root ∉ t.names := by
  exact searchFree_not_mem t.names root t.names.length 0
    (exists_free_candidate t.names root)

theorem lookup_append_single {α β : Type} [BEq α] [LawfulBEq α]
    (l : List (α × β)) (k : α) (v : β) (h : l.lookup k = none) :
    (l ++ [(k, v)]).lookup k = some v := by
  induction l with
  | nil => simp [List.lookup]
  | cons p rest ih =>
      rw [List.cons_append, List.lookup]
      by_cases hk : k = p.1
      · exfalso
        rw [List.lookup] at h
        simp only [show (k == p.1) = true from beq_iff_eq.mpr hk] at h
        cases h
      · simp only [show (k == p.1) = false from beq_eq_false_iff_ne.mpr hk]
        rw [List.lookup] at h
        simp only [show (k == p.1) = false from beq_eq_false_iff_ne.mpr hk] at h
        exact ih h

theorem lookup_mem_pairs {α β : Type} [BEq α] [LawfulBEq α]
    (l : List (α × β)) (k : α) (v : β) (h : l.lookup k = some v) :
    (k, v) ∈ l := by
  induction l with
  | nil => cases h
  | cons p rest ih =>
      rw [List.lookup] at h
      by_cases hk : (k == p.1) = true
      · simp only [hk] at h
        have hv : p.2 = v := by
          injection h
        have hp : p = (k, v) := by
          cases p
          simp only [Prod.mk.injEq]
          exact ⟨(beq_iff_eq.mp hk).symm, hv⟩
        rw [← hp]
        exact List.mem_cons_self p rest
      · simp only [eq_false_of_ne_true hk] at h
        exact List.mem_cons_of_mem p (ih h)

theorem lookup_mem_values {α β : Type} [BEq α] [LawfulBEq α]
    (l : List (α × β)) (k : α) (v : β) (h : l.lookup k = some v) :
    v ∈ l.map Prod.snd := by
  exact List.mem_map.mpr ⟨(k, v), lookup_mem_pairs l k v h, rfl⟩

theorem lookup_distinct_keys {α β : Type} [BEq α] [LawfulBEq α]
    (l : List (α × β)) (k1 k2 : α) (v1 v2 : β)
    (hnd : (l.map Prod.snd).Nodup) (hk : k1 ≠ k2)
    (h1 : l.lookup k1 = some v1) (h2 : l.lookup k2 = some v2) : v1 ≠ v2 := by
  induction l with
  | nil => cases h1
  | cons p rest ih =>
      rw [List.lookup] at h1 h2
      simp only [List.map, List.nodup_cons] at hnd
      by_cases hb1 : (k1 == p.1) = true
      · simp only [hb1] at h1
        have hv1 : p.2 = v1 := by injection h1
        have hb2 : (k2 == p.1) = false := by
          rw [beq_eq_false_iff_ne]
          intro hcon
          exact hk (by rw [beq_iff_eq.mp hb1, hcon])
        simp only [hb2] at h2
        intro hcon
        exact hnd.1 (hv1 ▸ hcon ▸ lookup_mem_values rest k2 v2 h2)
      · simp only [eq_false_of_ne_true hb1] at h1
        by_cases hb2 : (k2 == p.1) = true
        · simp only [hb2] at h2
          have hv2 : p.2 = v2 := by injection h2
          intro hcon
          exact hnd.1 (hv2 ▸ hcon ▸ lookup_mem_values rest k1 v1 h1)
        · simp only [eq_false_of_ne_true hb2] at h2
          exact ih hnd.2 h1 h2

theorem find_or_create_tag_WF (t : SymbolTable) (tag root : String)
    (h : t.WF) : (t.find_or_create_tag tag root).2.WF := by
  cases hl : t.tags.lookup tag with
  | some nm => simpa [SymbolTable.find_or_create_tag, hl] using h
  | none =>
      simp only [SymbolTable.find_or_create_tag, hl, SymbolTable.new_symbol]
      constructor
      · intro p hp
        rcases List.mem_append.mp hp with hp | hp
        · exact List.mem_append.mpr (Or.inl (h.1 p hp))
        · simp only [List.mem_singleton] at hp
          subst hp
          exact List.mem_append.mpr (Or.inr (by simp))
      · rw [List.map_append]
        simp only [List.map]
        rw [List.nodup_append]
        refine ⟨h.2, List.nodup_singleton _, ?_⟩
        intro a ha hb
        simp only [List.mem_singleton] at hb
        obtain ⟨p, hp, hp2⟩ := List.mem_map.mp ha
        exact next_available_name_not_mem t root
          (by rw [← hb, ← hp2]; exact h.1 p hp)

/-- Reapplying find_or_create_tag with the same tag returns the
same name: the tag lookup in the updated table finds the recorded entry. -/
theorem find_or_create_tag_idempotent (t : SymbolTable) (tag root root2 : String) :
    ((t.find_or_create_tag tag root).2.find_or_create_tag tag root2).1
      = (t.find_or_create_tag tag root).1 := by
  cases hl : t.tags.lookup tag with
  | some nm => simp [SymbolTable.find_or_create_tag, hl]
  | none =>
      simp only [SymbolTable.find_or_create_tag, hl, SymbolTable.new_symbol]
      rw [lookup_append_single t.tags tag _ hl]

/-- Calling find_or_create_tag for two distinct tags in sequence yields two
distinct names, provided the table is well-formed. -/
theorem find_or_create_tag_distinct (t : SymbolTable) (tag1 tag2 root1 root2 : String)
    (hwf : t.WF) (hne : tag1 ≠ tag2) :
    (t.find_or_create_tag tag1 root1).1
      ≠ (((t.find_or_create_tag tag1 root1).2).find_or_create_tag tag2 root2).1 := by
  cases hl1 : t.tags.lookup tag1 with
  | some nm1 =>
      simp only [SymbolTable.find_or_create_tag, hl1]
      cases hl2 : t.tags.lookup tag2 with
      | some nm2 =>
          simp only
          exact lookup_distinct_keys t.tags tag1 tag2 nm1 nm2 hwf.2 hne hl1 hl2
      | none =>
          simp only [SymbolTable.new_symbol]
          intro hcon
          exact next_available_name_not_mem t root2
            (hcon ▸ hwf.1 _ (lookup_mem_pairs t.tags tag1 nm1 hl1))
  | none =>
      simp only [SymbolTable.find_or_create_tag, hl1, SymbolTable.new_symbol]
      cases hl2 : (t.tags ++ [(tag1, t.next_available_name root1)]).lookup tag2 with
      | some nm2 =>
          simp only [hl2]
          intro hcon
          have hmem : (tag2, nm2) ∈ t.tags ++ [(tag1, t.next_available_name root1)] :=
            lookup_mem_pairs _ tag2 nm2 hl2
          rcases List.mem_append.mp hmem with hmem | hmem
          · exact next_available_name_not_mem t root1 (hcon ▸ hwf.1 _ hmem)
          · simp only [List.mem_singleton, Prod.mk.injEq] at hmem
            exact hne (hmem.1.symm)
      | none =>
          simp only [hl2]
          intro hcon
          have hfresh := next_available_name_not_mem
            ⟨t.names ++ [t.next_available_name root1],
             t.tags ++ [(tag1, t.next_available_name root1)]⟩ root2
          simp only [SymbolTable.next_available_name] at hfresh hcon
          exact hfresh (by
            rw [← hcon]
            exact List.mem_append.mpr (Or.inr (by simp)))

theorem exceptBind_ok {α β γ : Type} (a : α) (f : α → Except γ β) :
    (Except.ok a >>= f) = f a := rfl

/-- C7: SymPyWriter.literal_node renders boolean literals with Python
str.capitalize (so the PSyIR boolean values true/false become True/False),
renders integer and real literals as their bare stored value (precision
lives in the datatype, not the value, so it is dropped), and raises
immediately - never returning a string - on every character literal. -/
theorem C7_literal_node (cfg : WriterConfig) (root : Bool) (st : WState) :
    (∀ v, visitExpr cfg root st (SymExpr.literal ScalarIntrinsic.boolean v)
        = .ok (pyCapitalize v, SymExpr.literal ScalarIntrinsic.boolean v, st))
    ∧ visitExpr cfg root st (SymExpr.literal ScalarIntrinsic.boolean "true")
        = .ok ("True", SymExpr.literal ScalarIntrinsic.boolean "true", st)
    ∧ visitExpr cfg root st (SymExpr.literal ScalarIntrinsic.boolean "false")
        = .ok ("False", SymExpr.literal ScalarIntrinsic.boolean "false", st)
    ∧ (∀ v, visitExpr cfg root st (SymExpr.literal ScalarIntrinsic.character v)
        = .error (.typeError ("SymPy cannot handle strings like '" ++ v ++ "'.")))
    ∧ (∀ v, visitExpr cfg root st (SymExpr.literal ScalarIntrinsic.integer v)
        = .ok (v, SymExpr.literal ScalarIntrinsic.integer v, st))
    ∧ (∀ v, visitExpr cfg root st (SymExpr.literal ScalarIntrinsic.real v)
        = .ok (v, SymExpr.literal ScalarIntrinsic.real v, st)) :=
  ⟨fun _ => rfl, rfl, rfl, fun _ => rfl, fun _ => rfl, fun _ => rfl⟩

/-- C8: LanguageWriter.arrayreference_node renders a non-childless
ArrayReference as the name, the configured opening parenthesis, the
comma-joined per-dimension strings of gen_dims, and the configured closing
parenthesis; with no children it raises a VisitorError naming the symbol. -/
theorem C8_arrayreference_node (cfg : WriterConfig) (root : Bool) (st : WState)
    (name : String) :
    (∀ indices dims indices2 st2, indices ≠ [] →
       genIndices cfg st indices = .ok (dims, indices2, st2) →
       visitExpr cfg root st (SymExpr.arrayReference name indices)
         = .ok (name ++ cfg.parenOpen ++ joinSep "," dims ++ cfg.parenClose,
                SymExpr.arrayReference name indices2, st2))
    ∧ visitExpr cfg root st (SymExpr.arrayReference name [])
        = .error (.visitorError ("Incomplete ArrayReference node (for symbol '"
            ++ name ++ "') found: must have one or more children.")) := by
  constructor
  · intro indices dims indices2 st2 hne hgen
    have hemp : indices.isEmpty = false := by
      cases indices with
      | nil => exact absurd rfl hne
      | cons i rest => rfl
    simp only [visitExpr, hemp, Bool.false_eq_true, if_false, hgen]
    rfl
  · rfl

/-- C8 witness: a one-index array reference renders as a(3,3,1) under the
Fortran configuration, and a childless one raises the VisitorError. -/
theorem C8_arrayreference_node_witness :
    visitExpr fortranConfig true initState
        (SymExpr.arrayReference "a" [SymIndex.expr (SymExpr.literal ScalarIntrinsic.integer "3")])
      = .ok ("a(3,3,1)",
             SymExpr.arrayReference "a" [SymIndex.expr (SymExpr.literal ScalarIntrinsic.integer "3")],
             initState)
    ∧ visitExpr fortranConfig true initState (SymExpr.arrayReference "a" [])
      = .error (.visitorError "Incomplete ArrayReference node (for symbol 'a') found: must have one or more children.") := by
  constructor
  · exact (C8_arrayreference_node fortranConfig true initState "a").1
      [SymIndex.expr (SymExpr.literal ScalarIntrinsic.integer "3")]
      ["3", "3", "1"]
      [SymIndex.expr (SymExpr.literal ScalarIntrinsic.integer "3")]
      initState (by simp) rfl
  · exact (C8_arrayreference_node fortranConfig true initState "a").2

/-- C9: two Container nodes are equal exactly when they carry the same
concrete variant tag (Container vs FileContainer) and the same name; the
children play no role in the comparison. -/
theorem C9_container_eq (v1 v2 : ContainerVariant) (n1 n2 : String)
    (ch1 ch2 : List PsyNode) :
    containerEq (PsyNode.containerNode v1 n1 ch1) (PsyNode.containerNode v2 n2 ch2) = true
      ↔ (v1 = v2 ∧ n1 = n2) := by
  simp [containerEq]

/-- C10: Container._validate_child accepts exactly Container (including
FileContainer), Routine and CodeBlock children, independently of the
position - in particular CodeBlock children are accepted. -/
theorem C10_container_validate_child (pos pos2 : Nat) (child : PsyNode) :
    containerValidateChild pos child = containerValidateChild pos2 child
    ∧ (containerValidateChild pos child = true ↔
        ((∃ v n ch, child = PsyNode.containerNode v n ch)
          ∨ (∃ n, child = PsyNode.routine n)
          ∨ child = PsyNode.codeBlock))
    ∧ containerValidateChild pos PsyNode.codeBlock = true := by
  refine ⟨rfl, ?_, rfl⟩
  cases child <;> simp [containerValidateChild]

/-- C4: converting an expression containing an IntrinsicCall is NOT
read-only: with lowering disabled (no deep copy), intrinsiccall_node
overwrites the argument-name slots of the input node in place, so an input
MAX call carrying a named argument comes out of the conversion with all
its argument names erased - the returned tree differs from the input. -/
theorem C4_intrinsiccall_mutates_input :
    (sympyCall (fun s => some s) fortranConfig initState
        [SymExpr.intrinsicCall "MAX"
          [IntrinsicArg.arg none (SymExpr.reference "x" false 0),
           IntrinsicArg.arg (some "dim") (SymExpr.reference "y" false 0)]]).map
        (fun r => r.2.1)
      = .ok [SymExpr.intrinsicCall "MAX"
          [IntrinsicArg.arg none (SymExpr.reference "x" false 0),
           IntrinsicArg.arg none (SymExpr.reference "y" false 0)]]
    ∧ SymExpr.intrinsicCall "MAX"
          [IntrinsicArg.arg none (SymExpr.reference "x" false 0),
           IntrinsicArg.arg none (SymExpr.reference "y" false 0)]
        ≠ SymExpr.intrinsicCall "MAX"
          [IntrinsicArg.arg none (SymExpr.reference "x" false 0),
           IntrinsicArg.arg (some "dim") (SymExpr.reference "y" false 0)] := by
  constructor
  · rfl
  · intro h
    injection h with h1 h2
    injection h2 with h3 h4
    injection h4 with h5 h6
    injection h5 with h7 h8
    cases h7

/-- C5 counterexample: an ArrayOfStructuresReference with two children
whose first child is absent (None) and whose second child is an index
expression does NOT render successfully - the writer raises a VisitorError
naming NoneType - contradicting the claim that an absent first child is
accepted. -/
theorem C5_absent_child_counterexample :
    visitExpr fortranConfig true initState
        (SymExpr.aosReference "grid"
          [AOSChild.absent, AOSChild.index (SymIndex.expr (SymExpr.literal ScalarIntrinsic.integer "1"))])
      = .error (.visitorError "An ArrayOfStructuresReference must have a Member as its first child but found 'NoneType'") :=
  rfl

/-- C5 (amended): arrayofstructuresreference_node raises a VisitorError
when the node has fewer than two children, and also when its first child
is not a Member node (an absent/None first child is rejected, not
accepted); when the first child is a Member and the remaining index
children and the member render successfully, it returns the symbol name,
the opening array parenthesis, the comma-joined indices, the closing
parenthesis, the structure separator and the rendered member. -/
theorem C5_arrayofstructures_amended (cfg : WriterConfig) (root : Bool)
    (st : WState) (name : String) :
    (∀ children : List AOSChild, children.length < 2 →
       visitExpr cfg root st (SymExpr.aosReference name children)
         = .error (.visitorError
             ("An ArrayOfStructuresReference must have at least two children but found "
               ++ natToDecimal children.length)))
    ∧ (∀ (c : AOSChild) (rest : List AOSChild),
         2 ≤ (c :: rest).length → (∀ m, c ≠ AOSChild.member m) →
         visitExpr cfg root st (SymExpr.aosReference name (c :: rest))
           = .error (.visitorError
               ("An ArrayOfStructuresReference must have a Member as its first child but found '"
                 ++ aosChildTypeName c ++ "'")))
    ∧ (∀ m rest dims rest2 st2 ms m2 st3,
         2 ≤ (AOSChild.member m :: rest).length →
         genIndicesAOS cfg st rest = .ok (dims, rest2, st2) →
         visitMember cfg st2 [name] m = .ok (ms, m2, st3) →
         visitExpr cfg root st (SymExpr.aosReference name (AOSChild.member m :: rest))
           = .ok (name ++ cfg.parenOpen ++ joinSep "," dims ++ cfg.parenClose
                    ++ cfg.structureCharacter ++ ms,
                  SymExpr.aosReference name (AOSChild.member m2 :: rest2), st3)) := by
  refine ⟨?_, ?_, ?_⟩
  · intro children hlen
    cases children with
    | nil => rfl
    | cons a tail =>
        cases tail with
        | nil => rfl
        | cons b rest => exfalso; simp [List.length_cons] at hlen; omega
  · intro c rest hlen hnm
    cases rest with
    | nil => exfalso; simp [List.length_cons] at hlen
    | cons b tail =>
        cases c with
        | member m => exact absurd rfl (hnm m)
        | index i => rfl
        | absent => rfl
  · intro m rest dims rest2 st2 ms m2 st3 hlen hgen hmem
    cases rest with
    | nil => exfalso; simp [List.length_cons] at hlen
    | cons b tail =>
        show (genIndicesAOS cfg st (b :: tail) >>= fun p =>
                visitMember cfg p.2.2 [name] m >>= fun q =>
                Except.ok (name ++ cfg.parenOpen ++ joinSep "," p.1 ++ cfg.parenClose
                             ++ cfg.structureCharacter ++ q.1,
                           SymExpr.aosReference name (AOSChild.member q.2.1 :: p.2.1), q.2.2))
          = _
        rw [hgen]
        simp only [exceptBind_ok]
        rw [hmem]
        simp only [exceptBind_ok]

/-- C5 witness: a valid array-of-structures access grid(5)%data renders as
expected, a single-child node raises the arity VisitorError, and an index
first child raises the Member VisitorError. -/
theorem C5_arrayofstructures_amended_witness :
    visitExpr fortranConfig true initState
        (SymExpr.aosReference "grid"
          [AOSChild.member (SMember.member "data" none []),
           AOSChild.index (SymIndex.expr (SymExpr.literal ScalarIntrinsic.integer "5"))])
      = .ok ("grid(5,5,1)%grid_data",
             SymExpr.aosReference "grid"
               [AOSChild.member (SMember.member "data" none []),
                AOSChild.index (SymIndex.expr (SymExpr.literal ScalarIntrinsic.integer "5"))],
             { table := { names := ["grid_data"], tags := [("grid%data", "grid_data")] },
               typeMap := [("grid_data", SymKind.symbol)],
               lowerBound := "sympy_lower", upperBound := "sympy_upper" })
    ∧ visitExpr fortranConfig true initState
        (SymExpr.aosReference "grid" [AOSChild.member (SMember.member "data" none [])])
      = .error (.visitorError "An ArrayOfStructuresReference must have at least two children but found 1")
    ∧ visitExpr fortranConfig true initState
        (SymExpr.aosReference "grid"
          [AOSChild.index (SymIndex.expr (SymExpr.literal ScalarIntrinsic.integer "1")),
           AOSChild.index (SymIndex.expr (SymExpr.literal ScalarIntrinsic.integer "2"))])
      = .error (.visitorError "An ArrayOfStructuresReference must have a Member as its first child but found 'Literal'") := by
  refine ⟨?_, ?_, ?_⟩
  · exact (C5_arrayofstructures_amended fortranConfig true initState "grid").2.2
      (SMember.member "data" none [])
      [AOSChild.index (SymIndex.expr (SymExpr.literal ScalarIntrinsic.integer "5"))]
      ["5", "5", "1"]
      [AOSChild.index (SymIndex.expr (SymExpr.literal ScalarIntrinsic.integer "5"))]
      initState
      "grid_data"
      (SMember.member "data" none [])
      { table := { names := ["grid_data"], tags := [("grid%data", "grid_data")] },
        typeMap := [("grid_data", SymKind.symbol)],
        lowerBound := "sympy_lower", upperBound := "sympy_upper" }
      (by simp) rfl rfl
  · exact (C5_arrayofstructures_amended fortranConfig true initState "grid").1
      [AOSChild.member (SMember.member "data" none [])] (by simp)
  · exact (C5_arrayofstructures_amended fortranConfig true initState "grid").2.1
      (AOSChild.index (SymIndex.expr (SymExpr.literal ScalarIntrinsic.integer "1")))
      [AOSChild.index (SymIndex.expr (SymExpr.literal ScalarIntrinsic.integer "2"))]
      (by simp) (by intro m h; cases h)

/-- C1: a Reference to an array symbol with no index children renders as
the name applied to exactly rank-many repetitions of the
lower,upper,1 triple of reserved bound names; a single non-Range index
expression handed to gen_indices renders its dimension as the triple
index,index,1; and consequently a bare 2-D array reference and the full
slice with unit step over both dimensions render to the identical
argument pattern, whatever the slice's start/stop expressions are. -/
theorem C1_array_canonicalization (cfg : WriterConfig) (root : Bool) (st : WState) :
    (∀ name rank,
       visitExpr cfg root st (SymExpr.reference name true rank)
         = .ok (name ++ cfg.parenOpen
                  ++ joinSep ","
                      (List.replicate rank
                        (st.lowerBound ++ "," ++ st.upperBound ++ ",1"))
                  ++ cfg.parenClose,
                SymExpr.reference name true rank, st))
    ∧ (∀ e v e2 st2, visitExpr cfg false st e = .ok (v, e2, st2) →
         genIndex cfg st (SymIndex.expr e) = .ok ([v, v, "1"], SymIndex.expr e2, st2))
    ∧ (∀ name a b c d,
         (visitExpr cfg root st (SymExpr.reference name true 2)).map (fun r => r.1)
           = (visitExpr cfg root st (SymExpr.arrayReference name
               [SymIndex.range a b (SymExpr.literal ScalarIntrinsic.integer "1") true true,
                SymIndex.range c d (SymExpr.literal ScalarIntrinsic.integer "1") true true])).map
               (fun r => r.1)) := by
  refine ⟨fun name rank => rfl, ?_, ?_⟩
  · intro e v e2 st2 hv
    simp only [genIndex, hv]
    rfl
  · intro name a b c d
    show Except.ok (name ++ cfg.parenOpen
        ++ joinSep "," (List.replicate 2 (st.lowerBound ++ "," ++ st.upperBound ++ ",1"))
        ++ cfg.parenClose) = _
    have h1 : ∀ x y : String, x ++ "," ++ y ++ ",1" = x ++ "," ++ y ++ "," ++ "1" := by
      intro x y
      rw [String.append_assoc (x ++ "," ++ y) "," "1"]
      rfl
    simp only [List.replicate, joinSep, visitExpr, genIndices, genIndex]
    simp only [Except.map, h1]
    rfl

/-- C1 witness: for the Fortran configuration and the initial bound names,
a bare 2-D array a and the slice a(:,:) both render as
a(sympy_lower,sympy_upper,1,sympy_lower,sympy_upper,1), and the index 3
renders as the triple 3,3,1. -/
theorem C1_array_canonicalization_witness :
    (visitExpr fortranConfig true initState (SymExpr.reference "a" true 2)).map (fun r => r.1)
      = .ok "a(sympy_lower,sympy_upper,1,sympy_lower,sympy_upper,1)"
    ∧ (visitExpr fortranConfig true initState (SymExpr.arrayReference "a"
         [SymIndex.range (SymExpr.reference "p" false 0) (SymExpr.reference "q" false 0)
            (SymExpr.literal ScalarIntrinsic.integer "1") true true,
          SymIndex.range (SymExpr.reference "r" false 0) (SymExpr.reference "s" false 0)
            (SymExpr.literal ScalarIntrinsic.integer "1") true true])).map (fun r => r.1)
      = .ok "a(sympy_lower,sympy_upper,1,sympy_lower,sympy_upper,1)"
    ∧ genIndex fortranConfig initState
        (SymIndex.expr (SymExpr.literal ScalarIntrinsic.integer "3"))
      = .ok (["3", "3", "1"], SymIndex.expr (SymExpr.literal ScalarIntrinsic.integer "3"), initState) := by
  refine ⟨rfl, ?_, ?_⟩
  · have h := (C1_array_canonicalization fortranConfig true initState).2.2 "a"
      (SymExpr.reference "p" false 0) (SymExpr.reference "q" false 0)
      (SymExpr.reference "r" false 0) (SymExpr.reference "s" false 0)
    rw [← h]
    rfl
  · exact (C1_array_canonicalization fortranConfig true initState).2.1
      (SymExpr.literal ScalarIntrinsic.integer "3") "3"
      (SymExpr.literal ScalarIntrinsic.integer "3") initState rfl

theorem string_drop_self (s : String) : s.drop s.length = "" := by
  apply String.ext
  rw [String.data_drop]
  exact List.drop_length s.data

/-- The flat identifier returned by member_node for a chain-final Member
with no sub-member and no indices is the name allocated by
find_or_create_tag for the percent-joined tag and underscore-joined root. -/
theorem visitMember_leaf_string (cfg : WriterConfig) (st : WState)
    (anc : List String) (n : String) :
    (visitMember cfg st anc (SMember.member n none [])).map (fun r => r.1)
      = .ok ((st.table.find_or_create_tag (joinSep "%" (anc ++ [n]))
                (joinSep "_" (anc ++ [n]))).1
              ++ String.drop n n.length) := rfl

/-- The table after member_node on a chain-final Member is the table
updated by the corresponding find_or_create_tag. -/
theorem visitMember_leaf_table (cfg : WriterConfig) (st : WState)
    (anc : List String) (n : String) :
    (visitMember cfg st anc (SMember.member n none [])).map (fun r => r.2.2.table)
      = .ok (st.table.find_or_create_tag (joinSep "%" (anc ++ [n]))
              (joinSep "_" (anc ++ [n]))).2 := rfl

/-- C2: member_node flattens a structure-access chain to the flat
underscore-joined identifier registered in the batch symbol table under the
percent-joined structural tag, so that (i) two occurrences of the same
chain in one batch map to the same identifier, (ii) two distinct chains
(of percent-free component names) map to distinct identifiers whenever the
table is well-formed, and (iii) a collision of the flat name with an
existing variable is resolved by a suffixed unique name: flattening a%b%c
in a batch that already declares a_b_c yields a_b_c_1, registered under
the tag a%b%c. -/
theorem C2_member_flattening :
    (∀ (cfg : WriterConfig) (st : WState) (anc : List String) (n : String)
       (s1 : String) (m1 : SMember) (st1 : WState)
       (s2 : String) (m2 : SMember) (st2 : WState),
       visitMember cfg st anc (SMember.member n none []) = .ok (s1, m1, st1) →
       visitMember cfg st1 anc (SMember.member n none []) = .ok (s2, m2, st2) →
       s2 = s1)
    ∧ (∀ (cfg : WriterConfig) (st : WState) (anc1 : List String) (n1 : String)
         (anc2 : List String) (n2 : String)
         (s1 : String) (m1 : SMember) (st1 : WState)
         (s2 : String) (m2 : SMember) (st2 : WState),
         st.table.WF →
         (∀ s ∈ anc1 ++ [n1], '%' ∉ s.data) →
         (∀ s ∈ anc2 ++ [n2], '%' ∉ s.data) →
         anc1 ++ [n1] ≠ anc2 ++ [n2] →
         visitMember cfg st anc1 (SMember.member n1 none []) = .ok (s1, m1, st1) →
         visitMember cfg st1 anc2 (SMember.member n2 none []) = .ok (s2, m2, st2) →
         s1 ≠ s2)
    ∧ visitMember fortranConfig
        { table := { names := ["a_b_c"], tags := [] }, typeMap := [],
          lowerBound := "sympy_lower", upperBound := "sympy_upper" }
        ["a", "b"] (SMember.member "c" none [])
      = .ok ("a_b_c_1", SMember.member "c" none [],
             { table := { names := ["a_b_c", "a_b_c_1"],
                          tags := [("a%b%c", "a_b_c_1")] },
               typeMap := [("a_b_c_1", SymKind.symbol)],
               lowerBound := "sympy_lower", upperBound := "sympy_upper" }) := by
  refine ⟨?_, ?_, rfl⟩
  · intro cfg st anc n s1 m1 st1 s2 m2 st2 h1 h2
    have e1 : (Except.ok ((st.table.find_or_create_tag (joinSep "%" (anc ++ [n]))
          (joinSep "_" (anc ++ [n]))).1 ++ String.drop n n.length) : Except VErr String)
        = Except.ok s1 := by
      rw [← visitMember_leaf_string cfg st anc n, h1]
      rfl
    have t1 : (Except.ok (st.table.find_or_create_tag (joinSep "%" (anc ++ [n]))
          (joinSep "_" (anc ++ [n]))).2 : Except VErr SymbolTable) = Except.ok st1.table := by
      rw [← visitMember_leaf_table cfg st anc n, h1]
      rfl
    have e2 : (Except.ok ((st1.table.find_or_create_tag (joinSep "%" (anc ++ [n]))
          (joinSep "_" (anc ++ [n]))).1 ++ String.drop n n.length) : Except VErr String)
        = Except.ok s2 := by
      rw [← visitMember_leaf_string cfg st1 anc n, h2]
      rfl
    injection e1 with e1
    injection e2 with e2
    injection t1 with t1
    rw [← e1, ← e2, ← t1, find_or_create_tag_idempotent]
  · intro cfg st anc1 n1 anc2 n2 s1 m1 st1 s2 m2 st2 hwf hp1 hp2 hne h1 h2
    have e1 : (Except.ok ((st.table.find_or_create_tag (joinSep "%" (anc1 ++ [n1]))
          (joinSep "_" (anc1 ++ [n1]))).1 ++ String.drop n1 n1.length) : Except VErr String)
        = Except.ok s1 := by
      rw [← visitMember_leaf_string cfg st anc1 n1, h1]
      rfl
    have t1 : (Except.ok (st.table.find_or_create_tag (joinSep "%" (anc1 ++ [n1]))
          (joinSep "_" (anc1 ++ [n1]))).2 : Except VErr SymbolTable) = Except.ok st1.table := by
      rw [← visitMember_leaf_table cfg st anc1 n1, h1]
      rfl
    have e2 : (Except.ok ((st1.table.find_or_create_tag (joinSep "%" (anc2 ++ [n2]))
          (joinSep "_" (anc2 ++ [n2]))).1 ++ String.drop n2 n2.length) : Except VErr String)
        = Except.ok s2 := by
      rw [← visitMember_leaf_string cfg st1 anc2 n2, h2]
      rfl
    injection e1 with e1
    injection e2 with e2
    injection t1 with t1
    have htag : joinSep "%" (anc1 ++ [n1]) ≠ joinSep "%" (anc2 ++ [n2]) := by
      intro hcon
      exact hne (joinSep_percent_injective (anc1 ++ [n1]) (anc2 ++ [n2]) hp1 hp2
        (by simp) (by simp) hcon)
    have hdist := find_or_create_tag_distinct st.table
      (joinSep "%" (anc1 ++ [n1])) (joinSep "%" (anc2 ++ [n2]))
      (joinSep "_" (anc1 ++ [n1])) (joinSep "_" (anc2 ++ [n2])) hwf htag
    rw [← e1, ← e2, ← t1]
    rw [string_drop_self n1, string_drop_self n2,
        String.append_empty, String.append_empty]
    exact hdist

/-- C2 witness: in one batch, a%b flattens to a_b both times it occurs,
and a%b then a%c flatten to the distinct identifiers a_b and a_c. -/
theorem C2_member_flattening_witness :
    (("a_b" : String) = "a_b") ∧ (("a_b" : String) ≠ "a_c") := by
  constructor
  · exact C2_member_flattening.1 fortranConfig initState ["a"] "b"
      "a_b" (SMember.member "b" none [])
      { table := { names := ["a_b"], tags := [("a%b", "a_b")] },
        typeMap := [("a_b", SymKind.symbol)],
        lowerBound := "sympy_lower", upperBound := "sympy_upper" }
      "a_b" (SMember.member "b" none [])
      { table := { names := ["a_b"], tags := [("a%b", "a_b")] },
        typeMap := [("a_b", SymKind.symbol)],
        lowerBound := "sympy_lower", upperBound := "sympy_upper" }
      rfl rfl
  · exact C2_member_flattening.2.1 fortranConfig initState ["a"] "b" ["a"] "c"
      "a_b" (SMember.member "b" none [])
      { table := { names := ["a_b"], tags := [("a%b", "a_b")] },
        typeMap := [("a_b", SymKind.symbol)],
        lowerBound := "sympy_lower", upperBound := "sympy_upper" }
      "a_c" (SMember.member "c" none [])
      { table := { names := ["a_b", "a_c"], tags := [("a%b", "a_b"), ("a%c", "a_c")] },
        typeMap := [("a_b", SymKind.symbol), ("a_c", SymKind.symbol)],
        lowerBound := "sympy_lower", upperBound := "sympy_upper" }
      (by decide) (by decide) (by decide) (by decide) rfl rfl

theorem declareRefs_fst (l : List (String × Bool)) :
    ∀ (tbl : SymbolTable) (tm1 tm2 : List (String × SymKind)),
      (declareRefs (tbl, tm1) l).1 = (declareRefs (tbl, tm2) l).1 := by
  induction l with
  | nil => intro tbl tm1 tm2; rfl
  | cons p rest ih =>
      intro tbl tm1 tm2
      simp only [declareRefs]
      by_cases h : tbl.hasName p.1 = true
      · rw [if_pos h, if_pos h]
        exact ih tbl tm1 tm2
      · rw [if_neg h, if_neg h]
        exact ih _ _ _

/-- C3: _create_type_map builds a fresh symbol table on every call - the
resulting table and reserved bound names never depend on the incoming
writer state - and in the two-batch scenario (converting x+1, then x+2,
with whatever state the writer carries) each call leaves a symbol table
holding exactly x plus the two reserved bound names. -/
theorem C3_fresh_table_per_batch :
    (∀ (st1 st2 : WState) (exprs : List SymExpr),
       (createTypeMap st1 exprs).table = (createTypeMap st2 exprs).table
       ∧ (createTypeMap st1 exprs).lowerBound = (createTypeMap st2 exprs).lowerBound
       ∧ (createTypeMap st1 exprs).upperBound = (createTypeMap st2 exprs).upperBound)
    ∧ (∀ st : WState,
        (sympyCall (fun s => some s) fortranConfig st [xPlus "1"]).map
            (fun r => r.2.2.table.names)
          = .ok ["x", "sympy_lower", "sympy_upper"])
    ∧ (∀ st : WState,
        (sympyCall (fun s => some s) fortranConfig st [xPlus "2"]).map
            (fun r => r.2.2.table.names)
          = .ok ["x", "sympy_lower", "sympy_upper"]) := by
  refine ⟨?_, fun st => rfl, fun st => rfl⟩
  intro st1 st2 exprs
  simp only [createTypeMap]
  rw [declareRefs_fst _ _ st1.typeMap st2.typeMap]
  exact ⟨rfl, rfl, rfl⟩

theorem parseAll_cases {PR : Type} (parse : String → Option PR) :
    ∀ strs : List String,
      (∃ rs, parseAll parse strs = .ok rs ∧ rs.length = strs.length)
      ∨ (∃ s, s ∈ strs ∧ parse s = none ∧ parseAll parse strs
          = .error (.visitorError ("Invalid SymPy expression: '" ++ s ++ "'."))) := by
  intro strs
  induction strs with
  | nil => exact Or.inl ⟨[], rfl, rfl⟩
  | cons s rest ih =>
      cases hp : parse s with
      | none =>
          right
          exact ⟨s, by simp, hp, by simp [parseAll, hp]⟩
      | some r =>
          rcases ih with ⟨rs, hok, hlen⟩ | ⟨t, htm, htn, herr⟩
          · left
            exact ⟨r :: rs, by simp [parseAll, hp, hok], by simp [hlen]⟩
          · right
            exact ⟨t, by simp [htm], htn, by simp [parseAll, hp, herr]⟩

theorem exceptBind_error {α β γ : Type} (err : γ) (f : α → Except γ β) :
    ((Except.error err : Except γ α) >>= f) = Except.error err := rfl

theorem visitRoots_length (cfg : WriterConfig) :
    ∀ (exprs : List SymExpr) (st : WState) (strs : List String)
      (post : List SymExpr) (st2 : WState),
      visitRoots cfg st exprs = .ok (strs, post, st2) → strs.length = exprs.length := by
  intro exprs
  induction exprs with
  | nil =>
      intro st strs post st2 h
      injection h with h
      have h1 : ([] : List String) = strs := congrArg (fun p => p.1) h
      rw [← h1]
      rfl
  | cons e rest ih =>
      intro st strs post st2 h
      have hun : visitRoots cfg st (e :: rest)
          = (visitExpr cfg true st e >>= fun p =>
              visitRoots cfg p.2.2 rest >>= fun q =>
              Except.ok (p.1 :: q.1, p.2.1 :: q.2.1, q.2.2)) := rfl
      rw [hun] at h
      cases hv : visitExpr cfg true st e with
      | error err =>
          rw [hv, exceptBind_error] at h
          exact Except.noConfusion h
      | ok p =>
          obtain ⟨s, e2, stA⟩ := p
          rw [hv, exceptBind_ok] at h
          cases hr : visitRoots cfg stA rest with
          | error err =>
              rw [hr, exceptBind_error] at h
              exact Except.noConfusion h
          | ok q =>
              obtain ⟨ss, pp, stB⟩ := q
              rw [hr, exceptBind_ok] at h
              injection h with h
              have h1 : s :: ss = strs := congrArg (fun p => p.1) h
              have hlen := ih stA ss pp stB hr
              rw [← h1, List.length_cons, List.length_cons, hlen]

/-- C6: if the external parser rejects one of the strings generated for a
batch, SymPyWriter.__call__ raises a VisitorError whose message carries
that offending generated string; when every string parses, the returned
list has exactly one entry per input expression - no expression is ever
silently dropped. -/
theorem C6_parse_error_surfaced {PR : Type} (parse : String → Option PR)
    (cfg : WriterConfig) (st : WState) (exprs : List SymExpr)
    (strs : List String) (post : List SymExpr) (st2 : WState)
    (hto : toStrList cfg st exprs = .ok (strs, post, st2)) :
    (∃ rs, sympyCall parse cfg st exprs = .ok (rs, post, st2)
        ∧ rs.length = exprs.length)
    ∨ (∃ s, s ∈ strs ∧ parse s = none
        ∧ sympyCall parse cfg st exprs
            = .error (.visitorError ("Invalid SymPy expression: '" ++ s ++ "'."))) := by
  have hcall : sympyCall parse cfg st exprs
      = (toStrList cfg st exprs >>= fun p =>
          parseAll parse p.1 >>= fun rs =>
          Except.ok (rs, p.2.1, p.2.2)) := rfl
  have hlen : strs.length = exprs.length :=
    visitRoots_length cfg exprs (createTypeMap st exprs) strs post st2 hto
  rcases parseAll_cases parse strs with ⟨rs, hok, hrslen⟩ | ⟨s, hmem, hnone, herr⟩
  · left
    refine ⟨rs, ?_, by rw [hrslen, hlen]⟩
    rw [hcall, hto, exceptBind_ok]
    simp only
    rw [hok, exceptBind_ok]
  · right
    refine ⟨s, hmem, hnone, ?_⟩
    rw [hcall, hto, exceptBind_ok]
    simp only
    rw [herr, exceptBind_error]

/-- C6 witness: converting x+1 with a parser that rejects the generated
string x + 1 surfaces the VisitorError carrying that string (the left
disjunct is impossible since the parser rejects it). -/
theorem C6_parse_error_surfaced_witness :
    (∃ rs : List String,
        sympyCall (fun s => if s = "x + 1" then none else some s)
            fortranConfig initState [xPlus "1"]
          = .ok (rs, [xPlus "1"],
              { table := { names := ["x", "sympy_lower", "sympy_upper"],
                           tags := [("sympy!lower_bound", "sympy_lower"),
                                    ("sympy!upper_bound", "sympy_upper")] },
                typeMap := [("x", SymKind.symbol)],
                lowerBound := "sympy_lower", upperBound := "sympy_upper" })
          ∧ rs.length = 1)
    ∨ (∃ s, s ∈ ["x + 1"]
        ∧ (fun s => if s = "x + 1" then none else some (s : String)) s = none
        ∧ sympyCall (fun s => if s = "x + 1" then none else some s)
              fortranConfig initState [xPlus "1"]
            = .error (.visitorError ("Invalid SymPy expression: '" ++ s ++ "'."))) := by
  have h := C6_parse_error_surfaced
    (fun s => if s = "x + 1" then none else some s)
    fortranConfig initState [xPlus "1"] ["x + 1"] [xPlus "1"]
    { table := { names := ["x", "sympy_lower", "sympy_upper"],
                 tags := [("sympy!lower_bound", "sympy_lower"),
                          ("sympy!upper_bound", "sympy_upper")] },
      typeMap := [("x", SymKind.symbol)],
      lowerBound := "sympy_lower", upperBound := "sympy_upper" }
    rfl
  simpa using h

end PsyIR

